import Mathlib

/-!
Verification development for the OmniSupply orchestration engine.

The definitions below are a shallow embedding of the Python source:

* `src/src/agents/base.py` — `BaseAgent.execute`, `BaseAgent.can_handle`,
  `AgentRegistry` (`register`, `get_agent`, `list_agents`, `find_best_agent`);
* `src/src/supervisor/orchestrator.py` — `SupervisorAgent._execute_parallel`,
  `_execute_sequential`, the select/execute/aggregate/report nodes and
  `_build_report` / `_format_results_for_llm`;
* `src/src/agents/data_analyst.py` — the generate → execute → route retry
  cycle (`generate_sql_node`, `execute_query_node`, `_route_after_execution`)
  and `_format_result`;
* `src/src/agents/risk_agent.py` — the weighted risk scorer
  (`assess_risks_node`, `_classify_severity`).

Conventions of the embedding:

* Python `dict` (insertion ordered, assignment overwrites in place) is an
  association list manipulated through `dget` / `dinsert` below.
* A fallible collaborator call (LLM inference, database query, a worker task
  that may raise) is a value of `Except String α`: `.error e` models a raised
  exception whose `str(e)` is `e`.
* Python floats are modelled by `ℚ`.
* Python string truthiness (`if state.get('error')`) is `pyTruthy`.
* Wall-clock values (`datetime.now()`, `execution_time_ms`) are outside the
  embedding; where a formatted timestamp appears in report text it is passed
  in as an explicit `now` argument.
-/

/-! ### Python string primitives -/

/-- Python's `needle in hay` on strings, on the underlying character lists:
`needle` occurs contiguously inside `hay` (the empty needle always occurs). -/
def containsSub (hay needle : List Char) : Bool :=
  match hay with
  | [] => needle.isEmpty
  | _ :: t => needle.isPrefixOf hay || containsSub t needle

/-- Python's `str.split()` (split on runs of whitespace, dropping empty
pieces), on character lists, with an accumulator for the word being read. -/
def pySplitAux : List Char → List Char → List (List Char)
  | [], acc => if acc.isEmpty then [] else [acc.reverse]
  | c :: cs, acc =>
    if c.isWhitespace then
      if acc.isEmpty then pySplitAux cs [] else acc.reverse :: pySplitAux cs []
    else
      pySplitAux cs (c :: acc)

/-- Python's `s.split()` as a list of words (strings). -/
def pyWords (s : String) : List String :=
  (pySplitAux s.data []).map List.asString

/-- Python's `word in query` substring test on strings. -/
def pyContains (hay needle : String) : Bool :=
  containsSub hay.data needle.data

/-- Python truthiness of a string: `bool(s)` is `True` iff `s` is non-empty. -/
def pyTruthy (s : String) : Bool :=
  !s.data.isEmpty

/-- Python truthiness of an optional string field read with `.get`:
`None` and `""` are falsy, everything else truthy. -/
def optTruthy : Option String → Bool
  | none => false
  | some s => pyTruthy s

/-- Python `f"{x}"` on an optional string: `None` prints as `"None"`. -/
def optStr : Option String → String
  | none => "None"
  | some s => s

/-- Python's `s.lower()`: lower-case character by character. -/
def pyLower (s : String) : String :=
  String.mk (s.data.map Char.toLower)

theorem pyTruthy_append (s t : String) (h : s.data ≠ []) :
    pyTruthy (s ++ t) = true := by
  have hdata : (s ++ t).data = s.data ++ t.data := String.data_append s t
  unfold pyTruthy
  rw [hdata]
  cases hs : s.data with
  | nil => exact absurd hs h
  | cons c cs => simp

theorem append_ne_empty_left (s t : String) (h : s.data ≠ []) : s ++ t ≠ "" := by
  intro heq
  have hdata : (s ++ t).data = s.data ++ t.data := String.data_append s t
  rw [heq] at hdata
  cases hs : s.data with
  | nil => exact h hs
  | cons c cs => rw [hs] at hdata; simp at hdata

/-- Right-cancellation for string append, needed to tell the context keys
`name ++ "_result"` of distinct worker names apart. -/
theorem string_append_right_cancel {a b : String} (s : String)
    (h : a ++ s = b ++ s) : a = b := by
  have ha : (a ++ s).data = a.data ++ s.data := String.data_append a s
  have hb : (b ++ s).data = b.data ++ s.data := String.data_append b s
  have hdata : a.data ++ s.data = b.data ++ s.data := by rw [← ha, ← hb, h]
  have hab : a.data = b.data := List.append_cancel_right hdata
  cases a; cases b; exact congrArg String.mk hab

/-! ### Python dict as an insertion-ordered association list -/

/-- Python `d.get(k)` / `d[k]`: first (and, for dicts, only) binding of `k`. -/
def dget {α : Type _} (k : String) : List (String × α) → Option α
  | [] => none
  | (k', v) :: rest => if k' = k then some v else dget k rest

/-- Python `d[k] = v`: overwrite in place if the key is present, else append. -/
def dinsert {α : Type _} (k : String) (v : α) : List (String × α) → List (String × α)
  | [] => [(k, v)]
  | (k', v') :: rest => if k' = k then (k, v) :: rest else (k', v') :: dinsert k v rest

/-- Python `list(d.keys())`. -/
def dkeys {α : Type _} (d : List (String × α)) : List String :=
  d.map Prod.fst

@[simp] theorem dget_nil {α : Type _} (k : String) : dget k ([] : List (String × α)) = none := rfl

theorem dget_dinsert_self {α : Type _} (k : String) (v : α) (d : List (String × α)) :
    dget k (dinsert k v d) = some v := by
  induction d with
  | nil => simp [dinsert, dget]
  | cons p rest ih =>
      obtain ⟨k', v'⟩ := p
      by_cases h : k' = k
      · simp [dinsert, dget, h]
      · simp [dinsert, dget, h, ih]

theorem dget_dinsert_ne {α : Type _} (k k' : String) (v : α) (d : List (String × α))
    (h : k ≠ k') : dget k' (dinsert k v d) = dget k' d := by
  induction d with
  | nil => simp [dinsert, dget, h]
  | cons p rest ih =>
      obtain ⟨k₀, v₀⟩ := p
      by_cases h0 : k₀ = k
      · subst h0; simp [dinsert, dget, h]
      · by_cases h1 : k₀ = k'
        · subst h1; simp [dinsert, dget, h0]
        · simp [dinsert, dget, h0, h1, ih]

theorem dget_dinsert_isSome {α : Type _} (k k' : String) (v : α) (d : List (String × α))
    (h : (dget k' d).isSome) : (dget k' (dinsert k v d)).isSome := by
  by_cases hk : k = k'
  · subst hk; rw [dget_dinsert_self]; rfl
  · rwa [dget_dinsert_ne _ _ _ _ hk]

theorem dkeys_dinsert {α : Type _} (k : String) (v : α) (d : List (String × α)) :
    dkeys (dinsert k v d) = if k ∈ dkeys d then dkeys d else dkeys d ++ [k] := by
  induction d with
  | nil => simp [dinsert, dkeys]
  | cons p rest ih =>
      obtain ⟨k₀, v₀⟩ := p
      by_cases h0 : k₀ = k
      · subst h0; simp [dinsert, dkeys]
      · have hne : ¬ k = k₀ := fun h => h0 h.symm
        simp [dinsert, dkeys, h0, hne] at ih ⊢
        by_cases hmem : k ∈ List.map Prod.fst rest
        · simp [hmem, hne] at ih ⊢; exact ih
        · simp [hmem, hne] at ih ⊢; exact ih

theorem dkeys_dinsert_mem {α : Type _} (k : String) (v : α) (d : List (String × α)) :
    ∀ x, x ∈ dkeys (dinsert k v d) ↔ x = k ∨ x ∈ dkeys d := by
  intro x
  rw [dkeys_dinsert]
  by_cases hmem : k ∈ dkeys d
  · simp [hmem]
    rintro rfl
    exact hmem
  · simp [hmem, or_comm]

theorem dkeys_dinsert_nodup {α : Type _} (k : String) (v : α) (d : List (String × α))
    (h : (dkeys d).Nodup) : (dkeys (dinsert k v d)).Nodup := by
  rw [dkeys_dinsert]
  by_cases hmem : k ∈ dkeys d
  · simpa [hmem] using h
  · simp [hmem, List.nodup_append, h]

theorem length_dinsert_mem {α : Type _} (k : String) (v : α) (d : List (String × α))
    (h : k ∈ dkeys d) : (dinsert k v d).length = d.length := by
  induction d with
  | nil => simp [dkeys] at h
  | cons p rest ih =>
      obtain ⟨k₀, v₀⟩ := p
      by_cases h0 : k₀ = k
      · simp [dinsert, h0]
      · simp [dkeys, h0] at h
        rcases h with h | h
        · exact absurd h.symm h0
        · simp [dinsert, h0, ih (by simpa [dkeys] using h)]

theorem dget_mem_values {α : Type _} (k : String) (v : α) (d : List (String × α))
    (h : dget k d = some v) : (k, v) ∈ d := by
  induction d with
  | nil => simp [dget] at h
  | cons p rest ih =>
      obtain ⟨k₀, v₀⟩ := p
      by_cases h0 : k₀ = k
      · subst h0
        simp [dget] at h
        subst h
        exact List.mem_cons_self _ _
      · simp [dget, h0] at h
        exact List.mem_cons_of_mem _ (ih h)

/-! ### Data model -/

/-- A value stored in a Result's `metrics` mapping (Python allows numbers,
strings and `None` there). -/
inductive MetricVal where
  | num (n : ℕ)
  | str (s : String)
  | null
deriving DecidableEq

/-- Modelled from the spec: `src/src/data/models.py` (the `AgentResult`
pydantic model) is not part of the provided sources; the spec describes a
Result as "`agent_name`, `query`, `timestamp`, `success: bool`, `insights:
ordered sequence of string`, `recommendations: ordered sequence of string`,
`metrics: mapping`, `raw_data: optional structured payload`, `error: optional
string`, `execution_time_ms: optional number`".  `timestamp` and
`execution_time_ms` are wall-clock data outside the embedding and are
omitted; `raw_data` is kept abstract as an optional list of rows, each row a
string-keyed record of strings. -/
structure AgentResult where
  agent_name : String
  query : String
  success : Bool
  insights : List String := []
  recommendations : List String := []
  metrics : List (String × MetricVal) := []
  raw_data : Option (List (List (String × String))) := none
  error : Option String := none
deriving DecidableEq

/-- The failed Result built in the `except` branches of `BaseAgent.execute`
(`base.py` lines 160–167) and of the supervisor's fan-out/sequential loops
(`orchestrator.py` lines 295–301 and 333–339): `success=False`,
`error=str(e)`, all content fields left at their defaults. -/
def failedAgentResult (name query e : String) : AgentResult :=
  { agent_name := name, query := query, success := false, error := some e }

/-- A value stored in a supervisor `context` mapping: the supervisor puts
strings (`execution_order`, `timestamp`), a string list (`available_agents`)
and whole per-worker Results (`f"{agent_name}_result"`) into it. -/
inductive CtxVal where
  | str (s : String)
  | strList (l : List String)
  | res (r : AgentResult)
deriving DecidableEq

/-- A Python context dict as threaded through the supervisor. -/
abbrev Ctx := List (String × CtxVal)

/-! ### `BaseAgent.can_handle` (base.py lines 184–201) -/

/-- The per-capability match test inside the generator expression of
`BaseAgent.can_handle`: `any(word in query_lower for word in cap.split())` —
some whitespace-separated word of the (already lower-cased) capability occurs
as a substring of the lower-cased query. -/
def capMatchesQuery (queryLower cap : String) : Bool :=
  (pyWords cap).any (fun word => pyContains queryLower word)

/-- Source: `BaseAgent.can_handle`: lower-case the query and the capability strings,
count capabilities with at least one word occurring in the query, divide by
the number of capabilities and clamp with `min(·, 1.0)`; `0.0` when the
capability list is empty. -/
def canHandleDefault (capabilities : List String) (query : String) : ℚ :=
  let queryLower := pyLower query
  let caps := capabilities.map pyLower
  let matchCount : ℕ := caps.countP (fun cap => capMatchesQuery queryLower cap)
  if capabilities.isEmpty then 0
  else min ((matchCount : ℚ) / (capabilities.length : ℚ)) 1

/-- The token-overlap policy in the spec's own words ("count distinct
capabilities that share at least one word with the query"): a capability
matches when one of its words literally equals one of the query's words. -/
def sharesQueryWord (query cap : String) : Bool :=
  (pyWords (pyLower cap)).any (fun w => (pyWords (pyLower query)).contains w)

/-- The spec's description of the default confidence policy, §4.2: word-level
overlap between the capability and the query. -/
def canHandleSpec (capabilities : List String) (query : String) : ℚ :=
  if capabilities.isEmpty then 0
  else
    min (((capabilities.filter (fun c => sharesQueryWord query c)).length : ℚ) /
      (capabilities.length : ℚ)) 1

/-- The spec's phrasing of the policy amended to the source's actual match
test: a capability counts when one of its words occurs as a substring of the
lower-cased query. -/
def canHandleSpecAmended (capabilities : List String) (query : String) : ℚ :=
  if capabilities.isEmpty then 0
  else
    min (((capabilities.filter
        (fun c => capMatchesQuery (pyLower query) (pyLower c))).length : ℚ) /
      (capabilities.length : ℚ)) 1

/-! ### Worker, Registry (base.py lines 217–268) -/

/-- A Worker as the Registry and Supervisor see it: a name, a static
capability list, an optional `can_handle` override (specialised agents such
as the data analyst override the keyword policy), and the `execute` entry
point.  `exec` returning `.error e` models a worker task raising an
exception with message `e` (the supervisor's fan-out boundary catches it;
`BaseAgent.execute` itself never raises, see `executeWorker`). -/
structure Agent where
  name : String
  capabilities : List String
  canHandleOverride : Option (String → ℚ) := none
  exec : String → Ctx → Except String AgentResult := fun q _ => Except.ok (failedAgentResult "" q "")

/-- Dynamic dispatch of `agent.can_handle(query)`. -/
def Agent.canHandle (a : Agent) (query : String) : ℚ :=
  match a.canHandleOverride with
  | some f => f query
  | none => canHandleDefault a.capabilities query

/-- Source: `AgentRegistry.register`: `self.agents[agent.name] = agent`. -/
def registerAgent (reg : List (String × Agent)) (a : Agent) : List (String × Agent) :=
  dinsert a.name a reg

/-- Source: `AgentRegistry.get_agent`. -/
def getAgent (reg : List (String × Agent)) (name : String) : Option Agent :=
  dget name reg

/-- Source: `AgentRegistry.list_agents`. -/
def listAgents (reg : List (String × Agent)) : List String :=
  dkeys reg

/-- Python's `max(scores, key=scores.get)` over an insertion-ordered dict:
scan left to right, replacing the current best only on a strictly greater
score, so the first maximal element wins. -/
def maxByScoreFirst (x : String × ℚ) (l : List (String × ℚ)) : String × ℚ :=
  l.foldl (fun b y => if y.2 > b.2 then y else b) x

/-- Source: `AgentRegistry.find_best_agent` (base.py lines 244–262): score every
registered agent with `can_handle`, take the maximum (first one on ties),
return the agent if the best score is `> 0.3`, else `None`. -/
def findBestAgent (reg : List (String × Agent)) (query : String) : Option Agent :=
  match reg.map (fun p => (p.1, p.2.canHandle query)) with
  | [] => none
  | s :: ss =>
    let best := maxByScoreFirst s ss
    if best.2 > 3/10 then getAgent reg best.1 else none

/-! ### `BaseAgent.execute` (base.py lines 111–167) -/

/-- Source: `BaseAgent.execute` over an arbitrary worker state type `σ`: build the
initial state, run the compiled graph, format the final state; any exception
raised by either step (`.error e`) is caught and converted into a failed
Result with `error=str(e)`.  The function is total: no exception ever
propagates to the caller. -/
def executeWorker {σ : Type} (name query : String) (graphInvoke : σ → Except String σ)
    (formatRes : σ → Except String AgentResult) (initState : σ) : AgentResult :=
  match graphInvoke initState with
  | Except.error e => failedAgentResult name query e
  | Except.ok finalState =>
    match formatRes finalState with
    | Except.error e => failedAgentResult name query e
    | Except.ok r => r

/-! ### Weighted risk scorer (risk_agent.py) -/

/-- Severity labels returned by `RiskAgent._classify_severity`. -/
inductive Severity where
  | LOW
  | MEDIUM
  | HIGH
  | CRITICAL
deriving DecidableEq

/-- Source: `self.risk_weights` (risk_agent.py lines 83–88). -/
def riskWeights (category : String) : ℚ :=
  if category = "delivery" then 4/10
  else if category = "inventory" then 3/10
  else if category = "quality" then 2/10
  else if category = "financial" then 1/10
  else 0

/-- Source: `self.severity_thresholds` (risk_agent.py lines 91–96). -/
def severityThresholds (label : String) : ℚ :=
  if label = "CRITICAL" then 7/10
  else if label = "HIGH" then 5/10
  else if label = "MEDIUM" then 3/10
  else 0

/-- The weighted combination in `assess_risks_node` (risk_agent.py lines
374–379). -/
def overallRiskScore (delivery inventory quality financial : ℚ) : ℚ :=
  delivery * riskWeights "delivery" +
  inventory * riskWeights "inventory" +
  quality * riskWeights "quality" +
  financial * riskWeights "financial"

/-- Source: `RiskAgent._classify_severity` (risk_agent.py lines 478–487). -/
def classifySeverity (score : ℚ) : Severity :=
  if score ≥ severityThresholds "CRITICAL" then Severity.CRITICAL
  else if score ≥ severityThresholds "HIGH" then Severity.HIGH
  else if score ≥ severityThresholds "MEDIUM" then Severity.MEDIUM
  else Severity.LOW

/-- The score/severity pair computed by `assess_risks_node` from the four
per-category risk scores. -/
def assessRisks (delivery inventory quality financial : ℚ) : ℚ × Severity :=
  let overall := overallRiskScore delivery inventory quality financial
  (overall, classifySeverity overall)

/-! ### Supervisor: parallel fan-out (orchestrator.py lines 270–303) -/

/-- The task list built by `_execute_parallel`: one `(name, agent)` pair per
selected name that is present in the registry (`if agent:` skips unknown
names). -/
def mkTasks (reg : List (String × Agent)) (names : List String) : List (String × Agent) :=
  names.filterMap (fun n => (getAgent reg n).map (fun a => (n, a)))

/-- The outcome recorded for one parallel task: the worker's own Result if
the task returned, a failed Result under the worker's name if it raised. -/
def taskOutcome (query : String) (context : Ctx) (n : String) (a : Agent) : AgentResult :=
  match a.exec query context with
  | Except.ok r => r
  | Except.error e => failedAgentResult n query e

/-- The fan-in loop of `_execute_parallel`: await each task in creation
order, storing its Result (or the converted failed Result) in the results
dict under the worker's name. -/
def execParLoop (query : String) (context : Ctx) :
    List (String × Agent) → List (String × AgentResult) → List (String × AgentResult)
  | [], acc => acc
  | (n, a) :: rest, acc => execParLoop query context rest (dinsert n (taskOutcome query context n a) acc)

/-- Source: `SupervisorAgent._execute_parallel`. -/
def executeParallel (reg : List (String × Agent)) (names : List String) (query : String)
    (context : Ctx) : List (String × AgentResult) :=
  execParLoop query context (mkTasks reg names) []

/-! ### Supervisor: sequential execution (orchestrator.py lines 305–341) -/

/-- One observed invocation in the sequential loop: which agent ran, the
accumulated context it received, and whether its `execute` returned a Result
or raised. -/
structure SeqStep where
  agent : String
  ctxAtCall : Ctx
  outcome : Except String AgentResult

/-- The loop body of `_execute_sequential`, instrumented with the invocation
trace: run the workers one at a time in list order; a returned Result is
stored in the results dict and added to the accumulated context under
`f"{agent_name}_result"`; a raised exception is converted to a failed Result
and the loop continues with the context unchanged; names missing from the
registry are skipped. -/
def execSeqLoop (reg : List (String × Agent)) (query : String) :
    List String → Ctx → List (String × AgentResult) →
    List SeqStep × List (String × AgentResult) × Ctx
  | [], context, acc => ([], acc, context)
  | n :: rest, context, acc =>
    match getAgent reg n with
    | none => execSeqLoop reg query rest context acc
    | some a =>
      match a.exec query context with
      | Except.ok r =>
        let out := execSeqLoop reg query rest
          (dinsert (n ++ "_result") (CtxVal.res r) context) (dinsert n r acc)
        (⟨n, context, Except.ok r⟩ :: out.1, out.2)
      | Except.error e =>
        let out := execSeqLoop reg query rest context (dinsert n (failedAgentResult n query e) acc)
        (⟨n, context, Except.error e⟩ :: out.1, out.2)

/-- Source: `SupervisorAgent._execute_sequential` (with its invocation trace). -/
def executeSequential (reg : List (String × Agent)) (names : List String) (query : String)
    (context : Ctx) : List SeqStep × List (String × AgentResult) × Ctx :=
  execSeqLoop reg query names context []

/-! ### Supervisor pipeline nodes (orchestrator.py lines 139–413) -/

/-- Source: `AgentSelection`: the router LLM's structured output. -/
structure AgentSelection where
  agents : List String
  reasoning : String
  execution_order : String

/-- Source: `TaskPlan`: the planner LLM's structured output. -/
structure TaskPlan where
  steps : List String
  agents_needed : List String
  expected_output : String

/-- Source: `KPIItem`. -/
structure KPIItem where
  name : String
  value : String

/-- Source: `ExecutiveSummary`: the summarizer LLM's structured output. -/
structure ExecutiveSummary where
  summary : String
  key_insights : List String
  recommendations : List String
  kpis : List KPIItem

/-- Source: `SupervisorState` (orchestrator.py lines 59–69); `session_id` is a
generated timestamp string and is kept abstract. -/
structure SupervisorState where
  session_id : String
  user_query : String
  context : Ctx
  task_plan : Option TaskPlan := none
  selected_agents : List String := []
  agent_results : List (String × AgentResult) := []
  final_report : Option String := none
  executive_summary : Option ExecutiveSummary := none
  error : Option String := none

/-- Source: `parse_query_node`: adds the timestamp and the registry's agent names to
the context. -/
def parseQueryNode (reg : List (String × Agent)) (now : String) (s : SupervisorState) :
    SupervisorState :=
  let ctx1 := dinsert "timestamp" (CtxVal.str now) s.context
  let ctx2 := dinsert "available_agents" (CtxVal.strList (listAgents reg)) ctx1
  { s with context := ctx2 }

/-- Source: `plan_task_node`: the planner inference call either produces a TaskPlan
or raises, in which case the error is recorded and the pipeline continues. -/
def planTaskNode (planner : Except String TaskPlan) (s : SupervisorState) : SupervisorState :=
  match planner with
  | Except.ok plan => { s with task_plan := some plan }
  | Except.error e => { s with error := some ("Planning failed: " ++ e) }

/-- Source: `select_agents_node`: validate the router's agent names against the
registry, fall back to `find_best_agent` when none survive, and record the
selection and execution order. -/
def selectAgentsNode (router : Except String AgentSelection) (reg : List (String × Agent))
    (s : SupervisorState) : SupervisorState :=
  match router with
  | Except.error e => { s with error := some ("Agent selection failed: " ++ e) }
  | Except.ok selection =>
    let validAgents := selection.agents.filter (fun a => (listAgents reg).contains a)
    let validAgents :=
      if validAgents.isEmpty then
        match findBestAgent reg s.user_query with
        | some best => [best.name]
        | none => []
      else validAgents
    { s with selected_agents := validAgents,
             context := dinsert "execution_order" (CtxVal.str selection.execution_order) s.context }

/-- Source: `execute_agents_node`: nothing to do when the selection is empty;
otherwise dispatch to the parallel or sequential mode chosen by the
selection (default parallel) and store the per-worker results. -/
def executeAgentsNode (reg : List (String × Agent)) (s : SupervisorState) : SupervisorState :=
  if s.selected_agents.isEmpty then s
  else
    let executionOrder :=
      match dget "execution_order" s.context with
      | some (CtxVal.str o) => o
      | _ => "parallel"
    let results :=
      if executionOrder = "parallel" then
        executeParallel reg s.selected_agents s.user_query s.context
      else
        (executeSequential reg s.selected_agents s.user_query s.context).2.1
    { s with agent_results := results }

/-- Source: `aggregate_results_node`: collect insights, recommendations and metrics
of the successful workers into the context; a run with no results at all is
passed through unchanged. -/
def aggregateResultsNode (s : SupervisorState) : SupervisorState :=
  if s.agent_results.isEmpty then s
  else
    let successful := s.agent_results.filter (fun p => p.2.success)
    let ctx1 := dinsert "aggregated_insights"
      (CtxVal.strList (successful.flatMap (fun p => p.2.insights))) s.context
    let ctx2 := dinsert "aggregated_recommendations"
      (CtxVal.strList (successful.flatMap (fun p => p.2.recommendations))) ctx1
    let ctx3 := dinsert "aggregated_metrics"
      (CtxVal.strList (successful.map (fun p => p.1))) ctx2
    { s with context := ctx3 }

/-- Source: `_format_results_for_llm`: render the per-worker results for the
summarizer prompt (top 3 insights and top 2 recommendations per successful
worker, the error line for failed workers). -/
def formatResultsForLLM (results : List (String × AgentResult)) : String :=
  String.intercalate "\n" (results.flatMap (fun p =>
    ("\n**" ++ p.1 ++ "**:") ::
    (if p.2.success then
      ("  Insights: " ++ toString p.2.insights.length) ::
      (p.2.insights.take 3).map (fun i => "    - " ++ i) ++
      (if p.2.recommendations.isEmpty then []
       else ("  Recommendations: " ++ toString p.2.recommendations.length) ::
         (p.2.recommendations.take 2).map (fun r => "    - " ++ r))
     else ["  Error: " ++ optStr p.2.error])))

/-- Source: `f"{i}. {line}\n"` accumulation used for insights and recommendations in
`_build_report`. -/
def numberedLines (start : ℕ) : List String → String
  | [] => ""
  | x :: xs => toString start ++ ". " ++ x ++ "\n" ++ numberedLines (start + 1) xs

/-- One metrics line `f"- {k}: {v}\n"` of the per-agent detail section. -/
def metricLine (p : String × MetricVal) : String :=
  "- " ++ p.1 ++ ": " ++
    (match p.2 with
     | MetricVal.num n => toString n
     | MetricVal.str s => s
     | MetricVal.null => "None") ++ "\n"

/-- The per-agent detail section of `_build_report`. -/
def agentDetailSection (p : String × AgentResult) : String :=
  "### " ++ p.1 ++ "\n\n" ++
  (if p.2.success then
    (if p.2.insights.isEmpty then ""
     else "**Insights:**\n" ++ String.join (p.2.insights.map (fun i => "- " ++ i ++ "\n"))) ++
    (if p.2.metrics.isEmpty then ""
     else "\n**Metrics:**\n" ++ String.join (p.2.metrics.map metricLine))
   else "*Error: " ++ optStr p.2.error ++ "*\n") ++ "\n"

/-- Source: `SupervisorAgent._build_report` (orchestrator.py lines 442–492). -/
def buildReport (now : String) (s : SupervisorState) (summary : ExecutiveSummary) : String :=
  "# OmniSupply Intelligence Report\n\n**Generated:** " ++ now ++
  "\n**Query:** " ++ s.user_query ++
  "\n**Agents Used:** " ++ String.intercalate ", " s.selected_agents ++
  "\n\n---\n\n## Executive Summary\n\n" ++ summary.summary ++
  "\n\n---\n\n## Key Insights\n\n" ++
  numberedLines 1 summary.key_insights ++
  "\n---\n\n## Recommended Actions\n\n" ++
  numberedLines 1 summary.recommendations ++
  "\n---\n\n## Key Performance Indicators\n\n" ++
  String.join (summary.kpis.map (fun k => "- **" ++ k.name ++ "**: " ++ k.value ++ "\n")) ++
  "\n---\n\n## Detailed Results by Agent\n\n" ++
  String.join (s.agent_results.map agentDetailSection)

/-- Source: `generate_report_node`: an empty results dict short-circuits to the
fixed "no results" message; otherwise the summarizer inference call builds
the executive summary and the markdown report, and a summarizer failure
degrades to an error report. -/
def generateReportNode (summarizer : String → Except String ExecutiveSummary) (now : String)
    (s : SupervisorState) : SupervisorState :=
  if s.agent_results.isEmpty then
    { s with final_report := some "No results available to generate report." }
  else
    match summarizer (formatResultsForLLM s.agent_results) with
    | Except.ok execSummary =>
      { s with executive_summary := some execSummary,
               final_report := some (buildReport now s execSummary) }
    | Except.error e =>
      { s with error := some ("Report generation failed: " ++ e),
               final_report := some ("Error generating report: " ++ e) }

/-- Source: `SupervisorAgent.execute`: the five-stage pipeline
parse → plan → select → execute → aggregate → report on a freshly
initialized state. -/
def runSupervisor (reg : List (String × Agent)) (planner : Except String TaskPlan)
    (router : Except String AgentSelection) (summarizer : String → Except String ExecutiveSummary)
    (now sessionId query : String) (context : Ctx) : SupervisorState :=
  let s0 : SupervisorState := { session_id := sessionId, user_query := query, context := context }
  let s1 := parseQueryNode reg now s0
  let s2 := planTaskNode planner s1
  let s3 := selectAgentsNode router reg s2
  let s4 := executeAgentsNode reg s3
  let s5 := aggregateResultsNode s4
  generateReportNode summarizer now s5

/-! ### Data analyst worker (data_analyst.py) -/

/-- A database row as returned by `db.execute_query`. -/
abbrev Row := List (String × String)

/-- Source: `QueryEntities`. -/
structure QueryEntities where
  metrics : List String := []
  dimensions : List String := []
  filters : List String := []
  time_period : Option String := none

/-- Source: `QueryClassification`: the classifier LLM's structured output. -/
structure QueryClassification where
  query_type : String
  entities : QueryEntities := {}
  confidence : ℚ := 1
  reasoning : String := ""

/-- Source: `SQLQuery`: the SQL-generator LLM's structured output. -/
structure SQLQuery where
  sql : String
  explanation : String := ""
  expected_columns : List String := []

/-- Source: `AnalysisResult`: the analyzer LLM's structured output. -/
structure AnalysisResult where
  summary : String
  key_insights : List String
  anomalies : List String := []
  recommendations : List String := []

/-- One visualization recommendation. -/
structure Viz where
  viz_type : String
  description : String
  suitable_for : String

/-- Source: `DataAnalystState` (data_analyst.py lines 54–63).  `retry_count` is
absent from the initial state and every read uses
`state.get('retry_count', 0)`, so it is a plain `ℕ` starting at `0`;
`error` uses `none` for both "key absent" and `None`. -/
structure DAState where
  user_query : String
  classification : Option QueryClassification := none
  sql_query : Option SQLQuery := none
  query_results : Option (List Row) := none
  analysis : Option AnalysisResult := none
  visualizations : Option (List Viz) := none
  error : Option String := none
  retry_count : ℕ := 0

/-- Source: `self.max_retries` (data_analyst.py line 85). -/
def maxRetriesDA : ℕ := 2

/-- Source: `parse_query_node`: classify the query; a classifier failure records the
error and the node still returns the state. -/
def parseQueryNodeDA (classifier : String → Except String QueryClassification)
    (s : DAState) : DAState :=
  match classifier s.user_query with
  | Except.ok c => { s with classification := some c }
  | Except.error e => { s with error := some ("Query classification failed: " ++ e) }

/-- Source: `generate_sql_node` (data_analyst.py lines 205–254): pass through when
the retry budget is already exhausted; fail when no classification exists;
otherwise call the SQL generator (whose prompt is a function of the whole
state, including the previous error used as retry feedback) and clear the
error on success. -/
def generateSqlNode (sqlGen : DAState → Except String SQLQuery) (s : DAState) : DAState :=
  if optTruthy s.error && decide (maxRetriesDA ≤ s.retry_count) then s
  else
    match s.classification with
    | none => { s with error := some "No classification available" }
    | some _ =>
      match sqlGen s with
      | Except.ok q => { s with sql_query := some q, error := none }
      | Except.error e => { s with error := some ("SQL generation failed: " ++ e) }

/-- Source: `execute_query_node` (data_analyst.py lines 256–278): run the generated
SQL; on success store the rows and clear the error, on failure record the
error and increment `retry_count`. -/
def executeQueryNode (executor : String → Except String (List Row)) (s : DAState) : DAState :=
  match s.sql_query with
  | none => { s with error := some "No SQL query to execute" }
  | some q =>
    match executor q.sql with
    | Except.ok rows => { s with query_results := some rows, error := none }
    | Except.error e =>
      { s with error := some ("Query execution failed: " ++ e),
               retry_count := s.retry_count + 1 }

/-- Source: `DataAnalystAgent._route_after_execution` (data_analyst.py lines
280–289). -/
def routeAfterExecution (s : DAState) : String :=
  if optTruthy s.error then
    if s.retry_count < maxRetriesDA then "retry" else "end"
  else "analyze"

/-- Source: `analyze_results_node`: canned analysis for an empty result set, the
analyzer LLM otherwise, with a canned fallback if the analyzer raises. -/
def analyzeResultsNode (analyzer : DAState → Except String AnalysisResult)
    (s : DAState) : DAState :=
  let results := s.query_results.getD []
  let emptyAnalysis : AnalysisResult :=
    { summary := "No data returned from query.",
      key_insights := ["Query returned no results"],
      anomalies := [],
      recommendations := ["Verify data availability and query filters"] }
  let failedAnalysis : AnalysisResult :=
    { summary := "Analysis failed due to processing error.",
      key_insights := ["Unable to complete analysis"],
      anomalies := [],
      recommendations := [] }
  if results.isEmpty then
    { s with analysis := some emptyAnalysis }
  else
    match analyzer s with
    | Except.ok a => { s with analysis := some a }
    | Except.error _ => { s with analysis := some failedAnalysis }

/-- Source: `create_visualizations_node`: rule-based recommendation keyed on the
classified query type. -/
def createVisualizationsNode (s : DAState) : DAState :=
  let results := s.query_results.getD []
  if results.isEmpty then { s with visualizations := some [] }
  else
    match s.classification with
    | none => { s with visualizations := some [] }
    | some c =>
      let viz :=
        if c.query_type = "aggregation" then
          [⟨"bar_chart", "Bar chart showing aggregated metrics by dimension",
            "Comparing values across categories"⟩]
        else if c.query_type = "trend" then
          [⟨"line_chart", "Line chart showing metric trends over time",
            "Tracking changes over time periods"⟩]
        else if c.query_type = "comparison" then
          [⟨"grouped_bar_chart", "Grouped bar chart for multi-dimensional comparison",
            "Comparing multiple metrics across categories"⟩]
        else if c.query_type = "anomaly" then
          [⟨"scatter_plot", "Scatter plot to visualize outliers and distributions",
            "Identifying anomalies and patterns"⟩]
        else
          [(⟨"table", "Detailed table view of results",
            "Examining detailed records"⟩ : Viz)]
      { s with visualizations := some viz }

/-- The control-flow nodes of the compiled data-analyst graph. -/
inductive DANode where
  | parse
  | genSql
  | exec
  | analyze
  | viz
  | respond

/-- The compiled data-analyst graph of `_build_graph` (data_analyst.py lines
105–137), instrumented with the number of `db.execute_query` invocations:
parse → generate → execute, then the conditional edge
`{"analyze": analyze_results, "retry": generate_sql, "end": END}`, then
analyze → visualize → respond → END.  `fuel` bounds the number of node
executions; the returned flag records that the terminal sentinel was reached
within the given fuel. -/
def runDA (classifier : String → Except String QueryClassification)
    (sqlGen : DAState → Except String SQLQuery)
    (executor : String → Except String (List Row))
    (analyzer : DAState → Except String AnalysisResult) :
    ℕ → DANode → DAState → ℕ → DAState × ℕ × Bool
  | 0, _, s, calls => (s, calls, false)
  | fuel + 1, DANode.parse, s, calls =>
    runDA classifier sqlGen executor analyzer fuel DANode.genSql
      (parseQueryNodeDA classifier s) calls
  | fuel + 1, DANode.genSql, s, calls =>
    runDA classifier sqlGen executor analyzer fuel DANode.exec (generateSqlNode sqlGen s) calls
  | fuel + 1, DANode.exec, s, calls =>
    let calls' := calls + (if s.sql_query.isSome then 1 else 0)
    let s' := executeQueryNode executor s
    if routeAfterExecution s' = "retry" then
      runDA classifier sqlGen executor analyzer fuel DANode.genSql s' calls'
    else if routeAfterExecution s' = "end" then (s', calls', true)
    else runDA classifier sqlGen executor analyzer fuel DANode.analyze s' calls'
  | fuel + 1, DANode.analyze, s, calls =>
    runDA classifier sqlGen executor analyzer fuel DANode.viz (analyzeResultsNode analyzer s) calls
  | fuel + 1, DANode.viz, s, calls =>
    runDA classifier sqlGen executor analyzer fuel DANode.respond (createVisualizationsNode s) calls
  | _ + 1, DANode.respond, s, calls => (s, calls, true)

/-- One full data-analyst graph run from the freshly prepared state (fuel 20
is more than the longest possible path through the bounded retry cycle). -/
def runDataAnalyst (classifier : String → Except String QueryClassification)
    (sqlGen : DAState → Except String SQLQuery)
    (executor : String → Except String (List Row))
    (analyzer : DAState → Except String AnalysisResult)
    (query : String) : DAState × ℕ × Bool :=
  runDA classifier sqlGen executor analyzer 20 DANode.parse { user_query := query } 0

/-- Source: `DataAnalystAgent._format_result` (data_analyst.py lines 400–442). -/
def formatResultDA (s : DAState) : AgentResult :=
  let results := s.query_results.getD []
  let viz := s.visualizations.getD []
  let insights :=
    match s.analysis with
    | none => []
    | some a =>
      ("**Summary**: " ++ a.summary) :: a.key_insights.map (fun i => "- " ++ i) ++
      (if a.anomalies.isEmpty then []
       else "\n**Anomalies Detected**:" :: a.anomalies.map (fun an => "- " ++ an))
  let insights :=
    match s.error with
    | some e => if pyTruthy e then insights ++ ["\n**Error**: " ++ e] else insights
    | none => insights
  let recommendations :=
    match s.analysis with
    | some a => a.recommendations
    | none => []
  let metrics : List (String × MetricVal) :=
    [("rows_returned", MetricVal.num results.length),
     ("sql_query", match s.sql_query with
                   | some q => MetricVal.str q.sql
                   | none => MetricVal.null),
     ("query_type", match s.classification with
                    | some c => MetricVal.str c.query_type
                    | none => MetricVal.null),
     ("visualizations_recommended", MetricVal.num viz.length)]
  let metrics :=
    match s.error with
    | some e => if pyTruthy e then dinsert "error" (MetricVal.str e) metrics else metrics
    | none => metrics
  { agent_name := "data_analyst",
    query := s.user_query,
    success := !optTruthy s.error,
    insights := insights,
    recommendations := recommendations,
    metrics := metrics,
    raw_data := if results.isEmpty then none else some (results.take 20) }

/-! ## Claims -/

/-- C6: the weighted risk scorer combines the four per-category scores as
`overall = 0.4*delivery + 0.3*inventory + 0.2*quality + 0.1*financial` and
classifies severity with inclusive lower bounds, highest threshold first
(`≥ 0.7` CRITICAL, `≥ 0.5` HIGH, `≥ 0.3` MEDIUM, else LOW); signals
`(0.8, 0.2, 0.0, 1.0)` give overall `0.48`, classified MEDIUM, a score of
exactly `0.5` classifies HIGH and exactly `0.3` classifies MEDIUM. -/
theorem risk_scorer_weights_and_thresholds :
    (∀ d i q f : ℚ, (assessRisks d i q f).1 =
        (4/10) * d + (3/10) * i + (2/10) * q + (1/10) * f) ∧
    (∀ s : ℚ,
      (classifySeverity s = Severity.CRITICAL ↔ 7/10 ≤ s) ∧
      (classifySeverity s = Severity.HIGH ↔ 5/10 ≤ s ∧ s < 7/10) ∧
      (classifySeverity s = Severity.MEDIUM ↔ 3/10 ≤ s ∧ s < 5/10) ∧
      (classifySeverity s = Severity.LOW ↔ s < 3/10)) ∧
    (assessRisks (8/10) (2/10) 0 1).1 = 48/100 ∧
    (assessRisks (8/10) (2/10) 0 1).2 = Severity.MEDIUM ∧
    classifySeverity (5/10) = Severity.HIGH ∧
    classifySeverity (3/10) = Severity.MEDIUM := by
  have hd : riskWeights "delivery" = 4/10 := rfl
  have hi : riskWeights "inventory" = 3/10 := rfl
  have hq : riskWeights "quality" = 2/10 := rfl
  have hf : riskWeights "financial" = 1/10 := rfl
  have hC : severityThresholds "CRITICAL" = 7/10 := rfl
  have hH : severityThresholds "HIGH" = 5/10 := rfl
  have hM : severityThresholds "MEDIUM" = 3/10 := rfl
  have hform : ∀ d i q f : ℚ, overallRiskScore d i q f =
      (4/10) * d + (3/10) * i + (2/10) * q + (1/10) * f := by
    intro d i q f
    unfold overallRiskScore
    rw [hd, hi, hq, hf]
    ring
  have hcl : ∀ s : ℚ,
      (classifySeverity s = Severity.CRITICAL ↔ 7/10 ≤ s) ∧
      (classifySeverity s = Severity.HIGH ↔ 5/10 ≤ s ∧ s < 7/10) ∧
      (classifySeverity s = Severity.MEDIUM ↔ 3/10 ≤ s ∧ s < 5/10) ∧
      (classifySeverity s = Severity.LOW ↔ s < 3/10) := by
    intro s
    unfold classifySeverity
    rw [hC, hH, hM]
    by_cases h1 : 7/10 ≤ s
    · rw [if_pos h1]
      refine ⟨iff_of_true rfl h1, iff_of_false (by decide) ?_,
        iff_of_false (by decide) ?_, iff_of_false (by decide) ?_⟩
      · rintro ⟨h5, h7⟩; linarith
      · rintro ⟨h3, h5⟩; linarith
      · intro h3; linarith
    · rw [if_neg h1]
      by_cases h2 : 5/10 ≤ s
      · rw [if_pos h2]
        refine ⟨iff_of_false (by decide) (fun h7 => h1 h7),
          iff_of_true rfl ⟨h2, not_le.1 h1⟩,
          iff_of_false (by decide) ?_, iff_of_false (by decide) ?_⟩
        · rintro ⟨h3, h5⟩; linarith
        · intro h3; linarith
      · rw [if_neg h2]
        by_cases h3 : 3/10 ≤ s
        · rw [if_pos h3]
          refine ⟨iff_of_false (by decide) (fun h7 => h1 h7),
            iff_of_false (by decide) ?_,
            iff_of_true rfl ⟨h3, not_le.1 h2⟩, iff_of_false (by decide) ?_⟩
          · rintro ⟨h5, h7⟩; exact h2 h5
          · intro hlt; linarith
        · rw [if_neg h3]
          refine ⟨iff_of_false (by decide) (fun h7 => h1 h7),
            iff_of_false (by decide) ?_, iff_of_false (by decide) ?_,
            iff_of_true rfl (not_le.1 h3)⟩
          · rintro ⟨h5, h7⟩; exact h2 h5
          · rintro ⟨h3x, h5⟩; exact h3 h3x
  have hval : overallRiskScore (8/10) (2/10) 0 1 = 48/100 := by
    rw [hform]
    norm_num
  refine ⟨fun d i q f => hform d i q f, hcl, hval, ?_, ?_, ?_⟩
  · show classifySeverity (overallRiskScore (8/10) (2/10) 0 1) = Severity.MEDIUM
    rw [hval]
    exact ((hcl (48/100)).2.2.1).mpr (by norm_num)
  · exact ((hcl (5/10)).2.1).mpr (by norm_num)
  · exact ((hcl (3/10)).2.2.1).mpr (by norm_num)

/-- C1 counterexample: a graph run that raises an exception whose message is
the empty string produces a failed Result whose `error` is the empty string,
so `execute` does not always return a non-empty `error` when a collaborator
throws. -/
theorem executeWorker_empty_message_cex :
    (executeWorker "w" "q" (fun _ : Unit => Except.error "")
        (fun _ => Except.ok (failedAgentResult "w" "q" "x")) ()).success = false ∧
    (executeWorker "w" "q" (fun _ : Unit => Except.error "")
        (fun _ => Except.ok (failedAgentResult "w" "q" "x")) ()).error = some "" ∧
    ¬ ∃ e, (executeWorker "w" "q" (fun _ : Unit => Except.error "")
        (fun _ => Except.ok (failedAgentResult "w" "q" "x")) ()).error = some e ∧ e ≠ "" := by
  refine ⟨rfl, rfl, ?_⟩
  rintro ⟨e, he, hne⟩
  have h2 : some ("" : String) = some e := he
  exact hne (Option.some.inj h2).symm

/-- C1 (amended): `execute` is total — it never propagates an exception —
and whenever the graph run or the result formatting raises with message `e`,
it returns exactly the failed Result carrying that message: `success=false`
and `error=str(e)` (non-empty exactly when the exception's message is). -/
theorem executeWorker_failure_conversion {σ : Type} (name query : String)
    (graphInvoke : σ → Except String σ) (formatRes : σ → Except String AgentResult)
    (initState : σ) (e : String)
    (h : graphInvoke initState = Except.error e ∨
         ∃ finalState, graphInvoke initState = Except.ok finalState ∧
           formatRes finalState = Except.error e) :
    executeWorker name query graphInvoke formatRes initState = failedAgentResult name query e ∧
    (failedAgentResult name query e).success = false ∧
    (failedAgentResult name query e).error = some e := by
  refine ⟨?_, rfl, rfl⟩
  rcases h with h | ⟨finalState, h1, h2⟩
  · simp [executeWorker, h]
  · simp [executeWorker, h1, h2]

/-- C1 witness: a worker whose inference collaborator always throws
`"boom"` returns the failed Result with `success=false` and
`error="boom"`. -/
theorem executeWorker_failure_conversion_witness :
    executeWorker "data_analyst" "show revenue" (fun _ : Unit => Except.error "boom")
        (fun _ => Except.ok (failedAgentResult "data_analyst" "show revenue" "?")) () =
      failedAgentResult "data_analyst" "show revenue" "boom" ∧
    (failedAgentResult "data_analyst" "show revenue" "boom").success = false ∧
    (failedAgentResult "data_analyst" "show revenue" "boom").error = some "boom" :=
  executeWorker_failure_conversion "data_analyst" "show revenue" _ _ () "boom" (Or.inl rfl)

/-- C10: registering a second worker under an already-used name silently
replaces the first: lookup returns the later worker, the registry's size and
name list do not change, and the earlier worker is no longer reachable
through any lookup (given that every stored entry is keyed by its own
name, which `register` guarantees). -/
theorem registerAgent_replaces (reg : List (String × Agent)) (n : String) (a₁ a₂ : Agent)
    (hinv : ∀ p ∈ reg, p.2.name = p.1) (hn1 : a₁.name = n) (hn2 : a₂.name = n)
    (hne : a₂ ≠ a₁) :
    getAgent (registerAgent (registerAgent reg a₁) a₂) n = some a₂ ∧
    (registerAgent (registerAgent reg a₁) a₂).length = (registerAgent reg a₁).length ∧
    listAgents (registerAgent (registerAgent reg a₁) a₂) = listAgents (registerAgent reg a₁) ∧
    ∀ k, getAgent (registerAgent (registerAgent reg a₁) a₂) k ≠ some a₁ := by
  have hmem : n ∈ dkeys (registerAgent reg a₁) := by
    unfold registerAgent
    rw [hn1]
    exact (dkeys_dinsert_mem n a₁ reg n).mpr (Or.inl rfl)
  refine ⟨?_, ?_, ?_, ?_⟩
  · unfold registerAgent getAgent
    rw [hn2]
    exact dget_dinsert_self n a₂ _
  · show (dinsert a₂.name a₂ (registerAgent reg a₁)).length = _
    rw [hn2]
    exact length_dinsert_mem n a₂ _ hmem
  · show dkeys (dinsert a₂.name a₂ (registerAgent reg a₁)) = _
    rw [hn2, dkeys_dinsert]
    simp [hmem, listAgents]
  · intro k
    by_cases hk : k = n
    · subst hk
      unfold registerAgent getAgent
      rw [hn2, dget_dinsert_self]
      intro hEq
      exact hne (Option.some_injective _ hEq)
    · unfold registerAgent getAgent
      have hkne2 : a₂.name ≠ k := by rw [hn2]; exact fun h => hk h.symm
      have hkne1 : a₁.name ≠ k := by rw [hn1]; exact fun h => hk h.symm
      rw [dget_dinsert_ne _ _ _ _ hkne2, dget_dinsert_ne _ _ _ _ hkne1]
      intro hEq
      have hmem1 : (k, a₁) ∈ reg := dget_mem_values k a₁ reg hEq
      have hnk : a₁.name = k := hinv (k, a₁) hmem1
      exact hk (hn1.symm.trans hnk).symm

/-- A first worker registered under the name `"dup"`. -/
def dupAgentA : Agent :=
  { name := "dup", capabilities := ["first version"] }

/-- A second, different worker registered under the same name `"dup"`. -/
def dupAgentB : Agent :=
  { name := "dup", capabilities := ["second version"] }

/-- C10 witness: registering `dupAgentB` over `dupAgentA` replaces it in a
previously empty registry. -/
theorem registerAgent_replaces_witness :
    getAgent (registerAgent (registerAgent [] dupAgentA) dupAgentB) "dup" = some dupAgentB ∧
    (registerAgent (registerAgent [] dupAgentA) dupAgentB).length =
      (registerAgent [] dupAgentA).length ∧
    listAgents (registerAgent (registerAgent [] dupAgentA) dupAgentB) =
      listAgents (registerAgent [] dupAgentA) ∧
    ∀ k, getAgent (registerAgent (registerAgent [] dupAgentA) dupAgentB) k ≠ some dupAgentA :=
  registerAgent_replaces [] "dup" dupAgentA dupAgentB (by intro p hp; cases hp) rfl rfl
    (by
      intro h
      have hc := congrArg Agent.capabilities h
      simp [dupAgentA, dupAgentB] at hc)

/-- C8 counterexample: the source's match test is substring containment, not
word-level overlap — the capability `"cat"` scores `1.0` against the query
`"concatenate"` under `can_handle` although it shares no word with the
query (the spec's token-overlap policy scores `0`). -/
theorem canHandle_not_word_overlap_cex :
    canHandleDefault ["cat"] "concatenate" = 1 ∧
    canHandleSpec ["cat"] "concatenate" = 0 ∧
    canHandleDefault ["cat"] "concatenate" ≠ canHandleSpec ["cat"] "concatenate" := by
  have hm : (["cat"].map pyLower).countP
      (fun cap => capMatchesQuery (pyLower "concatenate") cap) = 1 := by decide
  have hf : ["cat"].filter (fun c => sharesQueryWord "concatenate" c) = [] := by decide
  have hd : canHandleDefault ["cat"] "concatenate" = 1 := by
    simp only [canHandleDefault, hm]
    norm_num
  have hs : canHandleSpec ["cat"] "concatenate" = 0 := by
    simp only [canHandleSpec, hf]
    norm_num
  refine ⟨hd, hs, ?_⟩
  rw [hd, hs]
  norm_num

/-- C8 (amended): the default `can_handle` equals the spec's lower-case /
count / divide / clamp pipeline with the per-capability match test read as
"some word of the capability occurs as a substring of the lower-cased
query" (instead of word-level sharing), and the returned value always lies
in `[0, 1]`. -/
theorem canHandleDefault_policy (capabilities : List String) (query : String) :
    canHandleDefault capabilities query = canHandleSpecAmended capabilities query ∧
    0 ≤ canHandleDefault capabilities query ∧
    canHandleDefault capabilities query ≤ 1 := by
  have hcount : (capabilities.map pyLower).countP
        (fun cap => capMatchesQuery (pyLower query) cap)
      = (capabilities.filter (fun c => capMatchesQuery (pyLower query) (pyLower c))).length := by
    rw [List.countP_map, List.countP_eq_length_filter]
    rfl
  by_cases hemp : capabilities.isEmpty = true
  · refine ⟨?_, ?_, ?_⟩
    · simp [canHandleDefault, canHandleSpecAmended, hemp]
    · simp [canHandleDefault, hemp]
    · simp [canHandleDefault, hemp]
  · have hlen : 0 < capabilities.length := by
      cases capabilities with
      | nil => simp at hemp
      | cons x xs => simp
    have hcl : (capabilities.map pyLower).countP
        (fun cap => capMatchesQuery (pyLower query) cap) ≤ capabilities.length := by
      calc (capabilities.map pyLower).countP (fun cap => capMatchesQuery (pyLower query) cap)
          ≤ (capabilities.map pyLower).length := List.countP_le_length _
        _ = capabilities.length := by simp
    refine ⟨?_, ?_, ?_⟩
    · simp only [canHandleDefault, canHandleSpecAmended, hemp, if_false, hcount]
    · simp only [canHandleDefault, hemp, if_false]
      exact le_min (by positivity) (by norm_num)
    · simp only [canHandleDefault, hemp, if_false]
      exact min_le_right _ _

/-- C9: adding one capability whose match test succeeds against the query
(in the source's sense: one of its words occurs in the lower-cased query)
never decreases the default `can_handle` score, wherever in the capability
list it is inserted. -/
theorem canHandleDefault_monotone (pre suf : List String) (c query : String)
    (hmatch : capMatchesQuery (pyLower query) (pyLower c) = true) :
    canHandleDefault (pre ++ suf) query ≤ canHandleDefault (pre ++ c :: suf) query := by
  have hm' : ((pre ++ c :: suf).map pyLower).countP
        (fun cap => capMatchesQuery (pyLower query) cap)
      = ((pre ++ suf).map pyLower).countP
        (fun cap => capMatchesQuery (pyLower query) cap) + 1 := by
    simp [List.countP_append, List.countP_cons, hmatch]
    omega
  have hlen' : (pre ++ c :: suf).length = (pre ++ suf).length + 1 := by
    simp
    omega
  have hcl : ((pre ++ suf).map pyLower).countP
      (fun cap => capMatchesQuery (pyLower query) cap) ≤ (pre ++ suf).length := by
    calc ((pre ++ suf).map pyLower).countP (fun cap => capMatchesQuery (pyLower query) cap)
        ≤ ((pre ++ suf).map pyLower).length := List.countP_le_length _
      _ = (pre ++ suf).length := by simp
  have hne2 : ¬ ((pre ++ c :: suf).isEmpty = true) := by
    cases pre <;> simp
  by_cases hemp : (pre ++ suf).isEmpty = true
  · have h0 : canHandleDefault (pre ++ suf) query = 0 := by
      simp [canHandleDefault, hemp]
    rw [h0]
    simp only [canHandleDefault, hne2, if_false]
    exact le_min (by positivity) (by norm_num)
  · simp only [canHandleDefault, hm', hlen']
    rw [if_neg hemp, if_neg hne2]
    set m : ℕ := ((pre ++ suf).map pyLower).countP
      (fun cap => capMatchesQuery (pyLower query) cap) with hm
    set n : ℕ := (pre ++ suf).length with hn
    have hnpos : 0 < n := by
      cases hps : pre ++ suf with
      | nil => rw [hps] at hemp; simp at hemp
      | cons x xs => rw [hn, hps]; simp
    have hq1 : ((m : ℚ)) / (n : ℚ) ≤ 1 := by
      rw [div_le_one (by positivity)]
      exact_mod_cast hcl
    have hq2 : (((m + 1 : ℕ) : ℚ)) / (((n + 1 : ℕ)) : ℚ) ≤ 1 := by
      rw [div_le_one (by positivity)]
      exact_mod_cast Nat.succ_le_succ hcl
    rw [min_eq_left hq1, min_eq_left hq2]
    rw [div_le_div_iff₀ (by positivity) (by positivity)]
    push_cast
    have hclq : (m : ℚ) ≤ (n : ℚ) := by exact_mod_cast hcl
    nlinarith [hclq]

/-- C9 witness: appending the matching capability `"anomaly detection"` to a
worker that only knows `"trend analysis"` does not decrease its score for
the query `"Detect anomaly in sales"`. -/
theorem canHandleDefault_monotone_witness :
    canHandleDefault (["trend analysis"] ++ []) "Detect anomaly in sales" ≤
    canHandleDefault (["trend analysis"] ++ "anomaly detection" :: []) "Detect anomaly in sales" :=
  canHandleDefault_monotone ["trend analysis"] [] "anomaly detection" "Detect anomaly in sales"
    (by decide)

/-- Python's `max` over the scores dict returns the first maximal element in
iteration (= insertion = registration) order: the fold keeps the current
best unless a strictly greater score appears.  The result is an element of
the list, bounds every score, and strictly dominates everything before
its (first) position. -/
theorem maxByScoreFirst_spec (x : String × ℚ) (l : List (String × ℚ)) :
    ∃ k : ℕ, (x :: l)[k]? = some (maxByScoreFirst x l) ∧
      (∀ (j : ℕ) (z : String × ℚ), (x :: l)[j]? = some z → z.2 ≤ (maxByScoreFirst x l).2) ∧
      (∀ (j : ℕ) (z : String × ℚ), j < k → (x :: l)[j]? = some z →
        z.2 < (maxByScoreFirst x l).2) := by
  induction l generalizing x with
  | nil =>
      refine ⟨0, by simp [maxByScoreFirst], ?_, ?_⟩
      · intro j y hj
        cases j with
        | zero =>
            simp only [List.getElem?_cons_zero, Option.some.injEq] at hj
            subst hj
            simp [maxByScoreFirst]
        | succ j => simp at hj
      · intro j y hj hy
        exact absurd hj (Nat.not_lt_zero j)
  | cons y l ih =>
      have heq0 : maxByScoreFirst x (y :: l) =
          maxByScoreFirst (if y.2 > x.2 then y else x) l := rfl
      by_cases hgt : y.2 > x.2
      · have heq : maxByScoreFirst x (y :: l) = maxByScoreFirst y l := by
          rw [heq0, if_pos hgt]
        obtain ⟨k, hk, hmax, hstrict⟩ := ih y
        refine ⟨k + 1, ?_, ?_, ?_⟩
        · rw [heq]
          simpa using hk
        · intro j z hj
          rw [heq]
          cases j with
          | zero =>
              simp only [List.getElem?_cons_zero, Option.some.injEq] at hj
              subst hj
              have hy := hmax 0 y (by simp)
              linarith
          | succ j =>
              exact hmax j z (by simpa using hj)
        · intro j z hj hz
          rw [heq]
          cases j with
          | zero =>
              simp only [List.getElem?_cons_zero, Option.some.injEq] at hz
              subst hz
              have hy := hmax 0 y (by simp)
              linarith
          | succ j =>
              exact hstrict j z (by omega) (by simpa using hz)
      · have heq : maxByScoreFirst x (y :: l) = maxByScoreFirst x l := by
          rw [heq0, if_neg hgt]
        have hyx : y.2 ≤ x.2 := le_of_not_lt hgt
        obtain ⟨k, hk, hmax, hstrict⟩ := ih x
        have hxle : x.2 ≤ (maxByScoreFirst x l).2 := hmax 0 x (by simp)
        cases k with
        | zero =>
            have hx : maxByScoreFirst x l = x := by
              simp only [List.getElem?_cons_zero, Option.some.injEq] at hk
              exact hk.symm
            refine ⟨0, ?_, ?_, ?_⟩
            · rw [heq, hx]
              simp
            · intro j z hj
              rw [heq]
              cases j with
              | zero =>
                  simp only [List.getElem?_cons_zero, Option.some.injEq] at hj
                  subst hj
                  exact hxle
              | succ j =>
                  cases j with
                  | zero =>
                      simp only [List.getElem?_cons_succ, List.getElem?_cons_zero,
                        Option.some.injEq] at hj
                      subst hj
                      rw [hx]
                      exact hyx
                  | succ j =>
                      exact hmax (j + 1) z (by simpa using hj)
            · intro j z hj hz
              exact absurd hj (Nat.not_lt_zero j)
        | succ k =>
            refine ⟨k + 2, ?_, ?_, ?_⟩
            · rw [heq]
              simpa using hk
            · intro j z hj
              rw [heq]
              cases j with
              | zero =>
                  simp only [List.getElem?_cons_zero, Option.some.injEq] at hj
                  subst hj
                  exact hxle
              | succ j =>
                  cases j with
                  | zero =>
                      simp only [List.getElem?_cons_succ, List.getElem?_cons_zero,
                        Option.some.injEq] at hj
                      subst hj
                      linarith
                  | succ j =>
                      exact hmax (j + 1) z (by simpa using hj)
            · intro j z hj hz
              rw [heq]
              cases j with
              | zero =>
                  simp only [List.getElem?_cons_zero, Option.some.injEq] at hz
                  subst hz
                  exact hstrict 0 x (Nat.succ_pos k) (by simp)
              | succ j =>
                  cases j with
                  | zero =>
                      simp only [List.getElem?_cons_succ, List.getElem?_cons_zero,
                        Option.some.injEq] at hz
                      subst hz
                      have hxlt := hstrict 0 x (Nat.succ_pos k) (by simp)
                      linarith
                  | succ j =>
                      exact hstrict (j + 1) z (by omega) (by simpa using hz)

/-- In a dict with distinct keys, looking up the key of the entry at any
position returns that entry's value. -/
theorem dget_getElem_nodup {α : Type _} (d : List (String × α)) (hnd : (dkeys d).Nodup)
    (k : ℕ) (p : String × α) (hk : d[k]? = some p) : dget p.1 d = some p.2 := by
  induction d generalizing k with
  | nil => simp at hk
  | cons q rest ih =>
      cases k with
      | zero =>
          simp only [List.getElem?_cons_zero, Option.some.injEq] at hk
          subst hk
          simp [dget]
      | succ k =>
          simp only [List.getElem?_cons_succ] at hk
          have hmem : p ∈ rest := by
            have := List.getElem?_eq_some_iff.mp hk
            obtain ⟨hlt, hEq⟩ := this
            exact hEq ▸ List.getElem_mem hlt
          have hkey : p.1 ∈ dkeys rest := List.mem_map_of_mem Prod.fst hmem
          simp only [dkeys, List.map_cons, List.nodup_cons] at hnd
          have hne : q.1 ≠ p.1 := fun h => hnd.1 (h ▸ hkey)
          have htail := ih hnd.2 k hk
          simpa [dget, hne] using htail

/-- C5: `find_best_agent` scores every registered worker with `can_handle`,
takes the maximum, and returns that worker exactly when the maximum is
strictly greater than `0.3` (else `None`); ties are broken by registration
order — every earlier worker scores strictly less than the returned one —
and the function is deterministic. -/
theorem findBestAgent_spec (reg : List (String × Agent)) (query : String)
    (hnd : (dkeys reg).Nodup) :
    (findBestAgent reg query = none ↔
      reg = [] ∨ ∀ p ∈ reg, p.2.canHandle query ≤ 3/10) ∧
    (∀ a : Agent, findBestAgent reg query = some a →
      3/10 < a.canHandle query ∧
      (∀ p ∈ reg, p.2.canHandle query ≤ a.canHandle query) ∧
      ∃ i : ℕ, (∃ p : String × Agent, reg[i]? = some p ∧ p.2 = a) ∧
        ∀ (j : ℕ) (q : String × Agent), j < i → reg[j]? = some q →
          q.2.canHandle query < a.canHandle query) ∧
    findBestAgent reg query = findBestAgent reg query := by
  cases reg with
  | nil =>
      have h0 : findBestAgent [] query = none := rfl
      refine ⟨?_, ?_, rfl⟩
      · rw [h0]
        simp
      · intro a ha
        rw [h0] at ha
        cases ha
  | cons p rest =>
      set f : String × Agent → String × ℚ := fun q => (q.1, q.2.canHandle query) with hf
      obtain ⟨k, hk, hmax, hstrict⟩ := maxByScoreFirst_spec (f p) (rest.map f)
      set best := maxByScoreFirst (f p) (rest.map f) with hbest
      have hk' : ((p :: rest).map f)[k]? = some best := hk
      have hkp : ∃ pk : String × Agent, (p :: rest)[k]? = some pk ∧ f pk = best := by
        rw [List.getElem?_map] at hk'
        cases hpk : (p :: rest)[k]? with
        | none => rw [hpk] at hk'; simp at hk'
        | some pk =>
            rw [hpk] at hk'
            simp at hk'
            exact ⟨pk, rfl, hk'⟩
      obtain ⟨pk, hpk, hfpk⟩ := hkp
      have hfind : findBestAgent (p :: rest) query =
          (if best.2 > 3/10 then getAgent (p :: rest) best.1 else none) := rfl
      have hmaxall : ∀ q ∈ (p :: rest), q.2.canHandle query ≤ best.2 := by
        intro q hq
        obtain ⟨j, hj⟩ := List.mem_iff_getElem?.mp hq
        have hmapj : ((p :: rest).map f)[j]? = some (f q) := by
          rw [List.getElem?_map, hj]
          rfl
        exact hmax j (f q) hmapj
      have hpkmem : pk ∈ p :: rest := by
        obtain ⟨hlt, hEq⟩ := List.getElem?_eq_some_iff.mp hpk
        exact hEq ▸ List.getElem_mem hlt
      have hsc : pk.2.canHandle query = best.2 := by
        rw [← hfpk]
      by_cases hth : best.2 > 3/10
      · have hga : findBestAgent (p :: rest) query = some pk.2 := by
          rw [hfind, if_pos hth]
          show getAgent (p :: rest) best.1 = some pk.2
          rw [← hfpk]
          exact dget_getElem_nodup _ hnd k pk hpk
        refine ⟨?_, ?_, rfl⟩
        · rw [hga]
          constructor
          · intro h
            cases h
          · rintro (h | h)
            · cases h
            · exfalso
              have hle := h pk hpkmem
              rw [hsc] at hle
              linarith
        · intro a ha
          rw [hga] at ha
          have haeq : pk.2 = a := Option.some.inj ha
          subst haeq
          refine ⟨by rw [hsc]; exact hth, ?_, ?_⟩
          · intro q hq
            rw [hsc]
            exact hmaxall q hq
          · refine ⟨k, ⟨pk, hpk, rfl⟩, ?_⟩
            intro j q hj hq
            have hmapj : ((p :: rest).map f)[j]? = some (f q) := by
              rw [List.getElem?_map, hq]
              rfl
            have hlt := hstrict j (f q) hj hmapj
            rw [hsc]
            exact hlt
      · have hnone : findBestAgent (p :: rest) query = none := by
          rw [hfind, if_neg hth]
        refine ⟨?_, ?_, rfl⟩
        · rw [hnone]
          constructor
          · intro _
            right
            intro q hq
            exact le_trans (hmaxall q hq) (le_of_not_lt hth)
          · intro _
            rfl
        · intro a ha
          rw [hnone] at ha
          cases ha

/-- A worker whose overriding confidence function always reports `1`. -/
def alphaAgent : Agent :=
  { name := "alpha", capabilities := ["inventory analysis"],
    canHandleOverride := some (fun _ => 1) }

/-- A second worker, also always reporting confidence `1`. -/
def betaAgent : Agent :=
  { name := "beta", capabilities := ["inventory analysis"],
    canHandleOverride := some (fun _ => 1) }

/-- A concrete two-worker registry (both workers tie at confidence `1`). -/
def regW : List (String × Agent) := [("alpha", alphaAgent), ("beta", betaAgent)]

/-- C5 witness: `find_best_agent` on the concrete tied registry satisfies
the full specification (threshold, maximality, first-max tie-break and
determinism). -/
theorem findBestAgent_spec_witness :
    (findBestAgent regW "check inventory" = none ↔
      regW = [] ∨ ∀ p ∈ regW, p.2.canHandle "check inventory" ≤ 3/10) ∧
    (∀ a : Agent, findBestAgent regW "check inventory" = some a →
      3/10 < a.canHandle "check inventory" ∧
      (∀ p ∈ regW, p.2.canHandle "check inventory" ≤ a.canHandle "check inventory") ∧
      ∃ i : ℕ, (∃ p : String × Agent, regW[i]? = some p ∧ p.2 = a) ∧
        ∀ (j : ℕ) (q : String × Agent), j < i → regW[j]? = some q →
          q.2.canHandle "check inventory" < a.canHandle "check inventory") ∧
    findBestAgent regW "check inventory" = findBestAgent regW "check inventory" :=
  findBestAgent_spec regW "check inventory" (by decide)

/-- Every task built by `_execute_parallel` pairs a selected name with the
agent registered under it. -/
theorem mkTasks_mem (reg : List (String × Agent)) (names : List String) :
    ∀ p ∈ mkTasks reg names, getAgent reg p.1 = some p.2 ∧ p.1 ∈ names := by
  induction names with
  | nil =>
      intro p hp
      simp [mkTasks] at hp
  | cons n rest ih =>
      intro p hp
      cases hg : getAgent reg n with
      | none =>
          simp only [mkTasks, List.filterMap_cons, hg, Option.map_none'] at hp
          obtain ⟨h1, h2⟩ := ih p hp
          exact ⟨h1, List.mem_cons_of_mem _ h2⟩
      | some a =>
          simp only [mkTasks, List.filterMap_cons, hg, Option.map_some'] at hp
          rcases List.mem_cons.mp hp with hp | hp
          · subst hp
            exact ⟨hg, List.mem_cons_self _ _⟩
          · obtain ⟨h1, h2⟩ := ih p hp
            exact ⟨h1, List.mem_cons_of_mem _ h2⟩

/-- When every selected name is registered, the created tasks are exactly
the selected names, in order. -/
theorem mkTasks_fst (reg : List (String × Agent)) (names : List String)
    (hreg : ∀ n ∈ names, (getAgent reg n).isSome) :
    (mkTasks reg names).map Prod.fst = names := by
  induction names with
  | nil => rfl
  | cons n rest ih =>
      have hs := hreg n (List.mem_cons_self _ _)
      cases hg : getAgent reg n with
      | none => rw [hg] at hs; cases hs
      | some a =>
          have ht := ih (fun m hm => hreg m (List.mem_cons_of_mem _ hm))
          simp only [mkTasks, List.filterMap_cons, hg, Option.map_some', List.map_cons] at ht ⊢
          rw [ht]

/-- The fan-in loop assigns each name the outcome of its own task alone:
the stored Result for `n` depends only on `n`'s agent, never on sibling
tasks. -/
theorem execParLoop_dget (query : String) (context : Ctx) (n : String) (a : Agent) :
    ∀ (tasks : List (String × Agent)) (acc : List (String × AgentResult)),
      (∀ p ∈ tasks, p.1 = n → p.2 = a) →
      dget n (execParLoop query context tasks acc) =
        (if n ∈ tasks.map Prod.fst then some (taskOutcome query context n a)
         else dget n acc) := by
  intro tasks
  induction tasks with
  | nil =>
      intro acc h
      simp [execParLoop]
  | cons t rest ih =>
      intro acc h
      obtain ⟨m, b⟩ := t
      have hstep : execParLoop query context ((m, b) :: rest) acc =
          execParLoop query context rest (dinsert m (taskOutcome query context m b) acc) := rfl
      rw [hstep]
      rw [ih _ (fun p hp hp1 => h p (List.mem_cons_of_mem _ hp) hp1)]
      by_cases hm : m = n
      · subst hm
        have hb : b = a := h (m, b) (List.mem_cons_self _ _) rfl
        subst hb
        by_cases hmem : m ∈ rest.map Prod.fst
        · simp [hmem]
        · simp [hmem, dget_dinsert_self]
      · have hne : ¬ n = m := fun hEq => hm hEq.symm
        by_cases hmem : n ∈ rest.map Prod.fst
        · simp [hmem, hne]
        · simp [hmem, hne, dget_dinsert_ne m n _ _ hm]

/-- The keys of the fan-in results dict are the task names plus whatever the
accumulator already held. -/
theorem execParLoop_keys (query : String) (context : Ctx) :
    ∀ (tasks : List (String × Agent)) (acc : List (String × AgentResult)) (x : String),
      x ∈ dkeys (execParLoop query context tasks acc) ↔
        x ∈ tasks.map Prod.fst ∨ x ∈ dkeys acc := by
  intro tasks
  induction tasks with
  | nil =>
      intro acc x
      simp [execParLoop]
  | cons t rest ih =>
      intro acc x
      obtain ⟨m, b⟩ := t
      have hstep : execParLoop query context ((m, b) :: rest) acc =
          execParLoop query context rest (dinsert m (taskOutcome query context m b) acc) := rfl
      rw [hstep, ih]
      rw [dkeys_dinsert_mem m (taskOutcome query context m b) acc x]
      simp
      tauto

/-- The fan-in results dict never duplicates a key. -/
theorem execParLoop_nodup (query : String) (context : Ctx) :
    ∀ (tasks : List (String × Agent)) (acc : List (String × AgentResult)),
      (dkeys acc).Nodup → (dkeys (execParLoop query context tasks acc)).Nodup := by
  intro tasks
  induction tasks with
  | nil =>
      intro acc h
      exact h
  | cons t rest ih =>
      intro acc h
      obtain ⟨m, b⟩ := t
      exact ih _ (dkeys_dinsert_nodup m _ acc h)

/-- C3: in parallel mode, with every selected name registered, the results
mapping holds exactly one Result per selected worker keyed by its name; the
Result stored for a worker is determined by that worker's own task alone
(its own Result if it returned, the converted failed Result if it raised),
so one worker raising never disturbs its siblings' entries. -/
theorem executeParallel_isolation (reg : List (String × Agent)) (names : List String)
    (query : String) (context : Ctx)
    (hreg : ∀ n ∈ names, (getAgent reg n).isSome) :
    (∀ n, n ∈ dkeys (executeParallel reg names query context) ↔ n ∈ names) ∧
    (dkeys (executeParallel reg names query context)).Nodup ∧
    (∀ n a, n ∈ names → getAgent reg n = some a →
      dget n (executeParallel reg names query context) =
        some (taskOutcome query context n a)) ∧
    (∀ n a e, n ∈ names → getAgent reg n = some a →
      a.exec query context = Except.error e →
      dget n (executeParallel reg names query context) =
        some (failedAgentResult n query e) ∧
      (failedAgentResult n query e).success = false ∧
      (failedAgentResult n query e).error = some e ∧
      (failedAgentResult n query e).agent_name = n) := by
  have hfst : (mkTasks reg names).map Prod.fst = names := mkTasks_fst reg names hreg
  have hmain : ∀ n a, n ∈ names → getAgent reg n = some a →
      dget n (executeParallel reg names query context) =
        some (taskOutcome query context n a) := by
    intro n a hn hg
    have hsame : ∀ p ∈ mkTasks reg names, p.1 = n → p.2 = a := by
      intro p hp hp1
      have h1 := (mkTasks_mem reg names p hp).1
      rw [hp1, hg] at h1
      exact (Option.some.inj h1).symm
    have h := execParLoop_dget query context n a (mkTasks reg names) [] hsame
    rw [hfst] at h
    rw [if_pos hn] at h
    exact h
  refine ⟨?_, ?_, hmain, ?_⟩
  · intro n
    have h := execParLoop_keys query context (mkTasks reg names) [] n
    rw [hfst] at h
    simpa [executeParallel, dkeys] using h
  · exact execParLoop_nodup query context (mkTasks reg names) [] (by simp [dkeys])
  · intro n a e hn hg hx
    have h := hmain n a hn hg
    rw [h]
    unfold taskOutcome
    rw [hx]
    exact ⟨rfl, rfl, rfl, rfl⟩

/-- A context binding whose key is not any upcoming worker's result key is
still visible, unchanged, in the context handed to every later invocation of
the sequential loop. -/
theorem execSeqLoop_ctx_preserved (reg : List (String × Agent)) (query : String)
    (k : String) (v : CtxVal) :
    ∀ (names : List String) (context : Ctx) (acc : List (String × AgentResult)),
      dget k context = some v →
      (∀ m ∈ names, ¬ (m ++ "_result" = k)) →
      ∀ step ∈ (execSeqLoop reg query names context acc).1,
        dget k step.ctxAtCall = some v := by
  intro names
  induction names with
  | nil =>
      intro context acc h1 h2 step hstep
      simp [execSeqLoop] at hstep
  | cons n rest ih =>
      intro context acc h1 h2 step hstep
      cases hg : getAgent reg n with
      | none =>
          have heq : (execSeqLoop reg query (n :: rest) context acc).1 =
              (execSeqLoop reg query rest context acc).1 := by
            simp [execSeqLoop, hg]
          rw [heq] at hstep
          exact ih context acc h1 (fun m hm => h2 m (List.mem_cons_of_mem _ hm)) step hstep
      | some a =>
          cases hx : a.exec query context with
          | ok r0 =>
              have heq : (execSeqLoop reg query (n :: rest) context acc).1 =
                  ⟨n, context, Except.ok r0⟩ ::
                    (execSeqLoop reg query rest
                      (dinsert (n ++ "_result") (CtxVal.res r0) context)
                      (dinsert n r0 acc)).1 := by
                simp [execSeqLoop, hg, hx]
              rw [heq] at hstep
              rcases List.mem_cons.mp hstep with hs | hs
              · subst hs
                exact h1
              · have hkey : dget k (dinsert (n ++ "_result") (CtxVal.res r0) context) = some v := by
                  rw [dget_dinsert_ne _ _ _ _ (h2 n (List.mem_cons_self _ _))]
                  exact h1
                exact ih _ _ hkey (fun m hm => h2 m (List.mem_cons_of_mem _ hm)) step hs
          | error e =>
              have heq : (execSeqLoop reg query (n :: rest) context acc).1 =
                  ⟨n, context, Except.error e⟩ ::
                    (execSeqLoop reg query rest context
                      (dinsert n (failedAgentResult n query e) acc)).1 := by
                simp [execSeqLoop, hg, hx]
              rw [heq] at hstep
              rcases List.mem_cons.mp hstep with hs | hs
              · subst hs
                exact h1
              · exact ih _ _ h1 (fun m hm => h2 m (List.mem_cons_of_mem _ hm)) step hs

/-- Context threading of the sequential loop: whenever one invocation
returned a Result, every strictly later invocation sees that Result in its
context under the earlier worker's `_result` key (worker names assumed
pairwise distinct). -/
theorem execSeqLoop_ctx_threading (reg : List (String × Agent)) (query : String) :
    ∀ (names : List String) (context : Ctx) (acc : List (String × AgentResult)),
      names.Nodup →
      ∀ (pre mid post : List SeqStep) (s₁ s₂ : SeqStep) (r : AgentResult),
        (execSeqLoop reg query names context acc).1 = pre ++ s₁ :: mid ++ s₂ :: post →
        s₁.outcome = Except.ok r →
        dget (s₁.agent ++ "_result") s₂.ctxAtCall = some (CtxVal.res r) := by
  intro names
  induction names with
  | nil =>
      intro context acc hnd pre mid post s₁ s₂ r htr h1
      have hlen := congrArg List.length htr
      simp [execSeqLoop] at hlen
      omega
  | cons n rest ih =>
      intro context acc hnd pre mid post s₁ s₂ r htr h1
      have hnd' : rest.Nodup := (List.nodup_cons.mp hnd).2
      have hnotin : n ∉ rest := (List.nodup_cons.mp hnd).1
      cases hg : getAgent reg n with
      | none =>
          have heq : (execSeqLoop reg query (n :: rest) context acc).1 =
              (execSeqLoop reg query rest context acc).1 := by
            simp [execSeqLoop, hg]
          rw [heq] at htr
          exact ih context acc hnd' pre mid post s₁ s₂ r htr h1
      | some a =>
          cases hx : a.exec query context with
          | ok r0 =>
              have heq : (execSeqLoop reg query (n :: rest) context acc).1 =
                  ⟨n, context, Except.ok r0⟩ ::
                    (execSeqLoop reg query rest
                      (dinsert (n ++ "_result") (CtxVal.res r0) context)
                      (dinsert n r0 acc)).1 := by
                simp [execSeqLoop, hg, hx]
              rw [heq] at htr
              cases pre with
              | nil =>
                  simp only [List.nil_append] at htr
                  injection htr with hhead htail
                  subst hhead
                  have hr : r0 = r := Except.ok.inj h1
                  subst hr
                  have hs₂ : s₂ ∈ (execSeqLoop reg query rest
                      (dinsert (n ++ "_result") (CtxVal.res r0) context)
                      (dinsert n r0 acc)).1 := by
                    rw [htail]
                    exact List.mem_append_right _ (List.mem_cons_self _ _)
                  have hkey : dget (n ++ "_result")
                      (dinsert (n ++ "_result") (CtxVal.res r0) context) =
                      some (CtxVal.res r0) := dget_dinsert_self _ _ _
                  have hcond : ∀ m ∈ rest, ¬ (m ++ "_result" = n ++ "_result") := by
                    intro m hm hEq
                    exact hnotin (string_append_right_cancel _ hEq ▸ hm)
                  exact execSeqLoop_ctx_preserved reg query (n ++ "_result") (CtxVal.res r0)
                    rest _ _ hkey hcond s₂ hs₂
              | cons p pre' =>
                  simp only [List.cons_append] at htr
                  injection htr with hhead htail
                  exact ih _ _ hnd' pre' mid post s₁ s₂ r htail h1
          | error e =>
              have heq : (execSeqLoop reg query (n :: rest) context acc).1 =
                  ⟨n, context, Except.error e⟩ ::
                    (execSeqLoop reg query rest context
                      (dinsert n (failedAgentResult n query e) acc)).1 := by
                simp [execSeqLoop, hg, hx]
              rw [heq] at htr
              cases pre with
              | nil =>
                  simp only [List.nil_append] at htr
                  injection htr with hhead htail
                  subst hhead
                  simp at h1
              | cons p pre' =>
                  simp only [List.cons_append] at htr
                  injection htr with hhead htail
                  exact ih _ _ hnd' pre' mid post s₁ s₂ r htail h1

/-- With every selected name registered, the sequential loop invokes exactly
the selected workers, in selection order, regardless of their outcomes. -/
theorem execSeqLoop_order (reg : List (String × Agent)) (query : String) :
    ∀ (names : List String) (context : Ctx) (acc : List (String × AgentResult)),
      (∀ n ∈ names, (getAgent reg n).isSome) →
      (execSeqLoop reg query names context acc).1.map (fun st => st.agent) = names := by
  intro names
  induction names with
  | nil =>
      intro context acc hreg
      rfl
  | cons n rest ih =>
      intro context acc hreg
      have hs := hreg n (List.mem_cons_self _ _)
      cases hg : getAgent reg n with
      | none => rw [hg] at hs; cases hs
      | some a =>
          cases hx : a.exec query context with
          | ok r0 =>
              have heq : (execSeqLoop reg query (n :: rest) context acc).1 =
                  ⟨n, context, Except.ok r0⟩ ::
                    (execSeqLoop reg query rest
                      (dinsert (n ++ "_result") (CtxVal.res r0) context)
                      (dinsert n r0 acc)).1 := by
                simp [execSeqLoop, hg, hx]
              rw [heq, List.map_cons,
                ih _ _ (fun m hm => hreg m (List.mem_cons_of_mem _ hm))]
          | error e =>
              have heq : (execSeqLoop reg query (n :: rest) context acc).1 =
                  ⟨n, context, Except.error e⟩ ::
                    (execSeqLoop reg query rest context
                      (dinsert n (failedAgentResult n query e) acc)).1 := by
                simp [execSeqLoop, hg, hx]
              rw [heq, List.map_cons,
                ih _ _ (fun m hm => hreg m (List.mem_cons_of_mem _ hm))]

/-- A results entry, once written, survives the rest of the sequential
loop. -/
theorem execSeqLoop_results_mono (reg : List (String × Agent)) (query : String) :
    ∀ (names : List String) (context : Ctx) (acc : List (String × AgentResult)) (k : String),
      (dget k acc).isSome →
      (dget k (execSeqLoop reg query names context acc).2.1).isSome := by
  intro names
  induction names with
  | nil =>
      intro context acc k h
      exact h
  | cons n rest ih =>
      intro context acc k h
      cases hg : getAgent reg n with
      | none =>
          have heq : (execSeqLoop reg query (n :: rest) context acc).2.1 =
              (execSeqLoop reg query rest context acc).2.1 := by
            simp [execSeqLoop, hg]
          rw [heq]
          exact ih _ _ k h
      | some a =>
          cases hx : a.exec query context with
          | ok r0 =>
              have heq : (execSeqLoop reg query (n :: rest) context acc).2.1 =
                  (execSeqLoop reg query rest
                    (dinsert (n ++ "_result") (CtxVal.res r0) context)
                    (dinsert n r0 acc)).2.1 := by
                simp [execSeqLoop, hg, hx]
              rw [heq]
              exact ih _ _ k (dget_dinsert_isSome _ _ _ _ h)
          | error e =>
              have heq : (execSeqLoop reg query (n :: rest) context acc).2.1 =
                  (execSeqLoop reg query rest context
                    (dinsert n (failedAgentResult n query e) acc)).2.1 := by
                simp [execSeqLoop, hg, hx]
              rw [heq]
              exact ih _ _ k (dget_dinsert_isSome _ _ _ _ h)

/-- Every registered selected worker ends up with a Result in the sequential
results dict, whether its execute returned (successful or failed Result) or
raised. -/
theorem execSeqLoop_results_cover (reg : List (String × Agent)) (query : String) :
    ∀ (names : List String) (context : Ctx) (acc : List (String × AgentResult)),
      (∀ n ∈ names, (getAgent reg n).isSome) →
      ∀ n ∈ names, (dget n (execSeqLoop reg query names context acc).2.1).isSome := by
  intro names
  induction names with
  | nil =>
      intro context acc hreg n hn
      simp at hn
  | cons m rest ih =>
      intro context acc hreg n hn
      have hs := hreg m (List.mem_cons_self _ _)
      cases hg : getAgent reg m with
      | none => rw [hg] at hs; cases hs
      | some a =>
          cases hx : a.exec query context with
          | ok r0 =>
              have heq : (execSeqLoop reg query (m :: rest) context acc).2.1 =
                  (execSeqLoop reg query rest
                    (dinsert (m ++ "_result") (CtxVal.res r0) context)
                    (dinsert m r0 acc)).2.1 := by
                simp [execSeqLoop, hg, hx]
              rw [heq]
              rcases List.mem_cons.mp hn with hn | hn
              · subst hn
                exact execSeqLoop_results_mono reg query rest _ _ n
                  (by rw [dget_dinsert_self]; rfl)
              · exact ih _ _ (fun p hp => hreg p (List.mem_cons_of_mem _ hp)) n hn
          | error e =>
              have heq : (execSeqLoop reg query (m :: rest) context acc).2.1 =
                  (execSeqLoop reg query rest context
                    (dinsert m (failedAgentResult m query e) acc)).2.1 := by
                simp [execSeqLoop, hg, hx]
              rw [heq]
              rcases List.mem_cons.mp hn with hn | hn
              · subst hn
                exact execSeqLoop_results_mono reg query rest _ _ n
                  (by rw [dget_dinsert_self]; rfl)
              · exact ih _ _ (fun p hp => hreg p (List.mem_cons_of_mem _ hp)) n hn

/-- C4: in sequential mode (all selected names registered, pairwise
distinct), the workers are invoked one at a time in exactly the Selection's
order even when some of them fail; every invocation after a worker that
returned a Result sees that worker's Result in its received context under
the `f"{name}_result"` key; and every selected worker — failed or not —
contributes a Result to the final mapping. -/
theorem executeSequential_spec (reg : List (String × Agent)) (names : List String)
    (query : String) (context : Ctx)
    (hreg : ∀ n ∈ names, (getAgent reg n).isSome) (hnd : names.Nodup) :
    ((executeSequential reg names query context).1.map (fun st => st.agent) = names) ∧
    (∀ (pre mid post : List SeqStep) (s₁ s₂ : SeqStep) (r : AgentResult),
      (executeSequential reg names query context).1 = pre ++ s₁ :: mid ++ s₂ :: post →
      s₁.outcome = Except.ok r →
      dget (s₁.agent ++ "_result") s₂.ctxAtCall = some (CtxVal.res r)) ∧
    (∀ n ∈ names, (dget n (executeSequential reg names query context).2.1).isSome) := by
  refine ⟨execSeqLoop_order reg query names context [] hreg, ?_, ?_⟩
  · intro pre mid post s₁ s₂ r htr h1
    exact execSeqLoop_ctx_threading reg query names context [] hnd pre mid post s₁ s₂ r htr h1
  · intro n hn
    exact execSeqLoop_results_cover reg query names context [] hreg n hn

/-- A successful Result as a stub worker would return it. -/
def okResult (name query : String) : AgentResult :=
  { agent_name := name, query := query, success := true, insights := ["finding"] }

/-- A stub worker that executes quickly and successfully. -/
def parAgentData : Agent :=
  { name := "data_analyst", capabilities := [],
    exec := fun q _ => Except.ok (okResult "data_analyst" q) }

/-- A stub worker whose task always raises. -/
def parAgentRisk : Agent :=
  { name := "risk_agent", capabilities := [],
    exec := fun _ _ => Except.error "db down" }

/-- A second successful stub worker (the "slow" one of the spec's test:
completion order is irrelevant in the model, results are keyed by name). -/
def parAgentFin : Agent :=
  { name := "finance_agent", capabilities := [],
    exec := fun q _ => Except.ok (okResult "finance_agent" q) }

/-- A registry holding the three stub workers. -/
def regP : List (String × Agent) :=
  [("data_analyst", parAgentData), ("risk_agent", parAgentRisk),
   ("finance_agent", parAgentFin)]

/-- The names selected for the concurrency tests. -/
def parNames : List String := ["data_analyst", "risk_agent", "finance_agent"]

/-- C3 witness: the parallel isolation theorem applied to a concrete
three-worker selection in which one worker throws and two succeed. -/
theorem executeParallel_isolation_witness :
    (∀ n, n ∈ dkeys (executeParallel regP parNames "status" []) ↔ n ∈ parNames) ∧
    (dkeys (executeParallel regP parNames "status" [])).Nodup ∧
    (∀ n a, n ∈ parNames → getAgent regP n = some a →
      dget n (executeParallel regP parNames "status" []) =
        some (taskOutcome "status" [] n a)) ∧
    (∀ n a e, n ∈ parNames → getAgent regP n = some a →
      a.exec "status" [] = Except.error e →
      dget n (executeParallel regP parNames "status" []) =
        some (failedAgentResult n "status" e) ∧
      (failedAgentResult n "status" e).success = false ∧
      (failedAgentResult n "status" e).error = some e ∧
      (failedAgentResult n "status" e).agent_name = n) :=
  executeParallel_isolation regP parNames "status" [] (by decide)

/-- C4 witness: the sequential theorem applied to the same concrete
registry, running the succeeding worker, then the raising worker, then the
second succeeding worker. -/
theorem executeSequential_spec_witness :
    ((executeSequential regP parNames "status" []).1.map (fun st => st.agent) = parNames) ∧
    (∀ (pre mid post : List SeqStep) (s₁ s₂ : SeqStep) (r : AgentResult),
      (executeSequential regP parNames "status" []).1 = pre ++ s₁ :: mid ++ s₂ :: post →
      s₁.outcome = Except.ok r →
      dget (s₁.agent ++ "_result") s₂.ctxAtCall = some (CtxVal.res r)) ∧
    (∀ n ∈ parNames, (dget n (executeSequential regP parNames "status" []).2.1).isSome) :=
  executeSequential_spec regP parNames "status" [] (by decide) (by decide)

/-- The data-analyst graph run in the always-failing-validation scenario of
the bounded-retry claim: the classifier succeeds with `c`, the SQL generator
always succeeds (`q` of the state it is prompted with, so retry feedback is
visible to it), and every `db.execute_query` call raises with message
`msg sql`. -/
def runDAAlwaysFail (c : QueryClassification) (q : DAState → SQLQuery)
    (msg : String → String) (analyzer : DAState → Except String AnalysisResult)
    (query : String) : DAState × ℕ × Bool :=
  runDataAnalyst (fun _ => Except.ok c) (fun s => Except.ok (q s))
    (fun sql => Except.error (msg sql)) analyzer query

/-- The state in which the first SQL generation is prompted. -/
def daAttempt1State (c : QueryClassification) (query : String) : DAState :=
  { user_query := query, classification := some c }

/-- The state after the first failed execution attempt — the state in which
the second (and last) SQL generation is prompted, error feedback included. -/
def daAttempt2State (c : QueryClassification) (q : DAState → SQLQuery)
    (msg : String → String) (query : String) : DAState :=
  { user_query := query, classification := some c,
    sql_query := some (q (daAttempt1State c query)),
    error := some ("Query execution failed: " ++ msg (q (daAttempt1State c query)).sql),
    retry_count := 1 }

/-- The error of the last (second) execution attempt, as
`execute_query_node` records it. -/
def daLastError (c : QueryClassification) (q : DAState → SQLQuery)
    (msg : String → String) (query : String) : String :=
  "Query execution failed: " ++ msg (q (daAttempt2State c q msg query)).sql

/-- C2 counterexample: with `max_retries = 2` and an executor that always
fails, the data-analyst graph calls `db.execute_query` exactly twice — not
three times — before routing to the terminal sentinel (`retry_count` is
incremented before `_route_after_execution` compares it with
`max_retries`). -/
theorem dataAnalyst_not_three_attempts_cex :
    (runDataAnalyst (fun _ => Except.ok { query_type := "aggregation" })
        (fun _ => Except.ok ({ sql := "SELECT 1" } : SQLQuery))
        (fun _ => Except.error "relation orders missing")
        (fun _ => Except.error "unused") "show revenue").2.1 = 2 ∧
    (runDataAnalyst (fun _ => Except.ok { query_type := "aggregation" })
        (fun _ => Except.ok ({ sql := "SELECT 1" } : SQLQuery))
        (fun _ => Except.error "relation orders missing")
        (fun _ => Except.error "unused") "show revenue").2.1 ≠ 3 ∧
    (runDataAnalyst (fun _ => Except.ok { query_type := "aggregation" })
        (fun _ => Except.ok ({ sql := "SELECT 1" } : SQLQuery))
        (fun _ => Except.error "relation orders missing")
        (fun _ => Except.error "unused") "show revenue").2.2 = true := by
  refine ⟨rfl, by decide, rfl⟩

/-- C2 (amended): with `max_retries = 2` and validation failing on every
attempt, the execute/validate step runs exactly twice (1 initial + 1
retry), the graph then reaches the terminal sentinel, and the final Result
has `success=false` with the last error preserved verbatim in its metrics
(and the error message is never empty). -/
theorem dataAnalyst_retry_exhaustion (c : QueryClassification) (q : DAState → SQLQuery)
    (msg : String → String) (analyzer : DAState → Except String AnalysisResult)
    (query : String) :
    (runDAAlwaysFail c q msg analyzer query).2.1 = 2 ∧
    (runDAAlwaysFail c q msg analyzer query).2.2 = true ∧
    (runDAAlwaysFail c q msg analyzer query).1.error = some (daLastError c q msg query) ∧
    daLastError c q msg query ≠ "" ∧
    (formatResultDA (runDAAlwaysFail c q msg analyzer query).1).success = false ∧
    dget "error" (formatResultDA (runDAAlwaysFail c q msg analyzer query).1).metrics =
      some (MetricVal.str (daLastError c q msg query)) := by
  refine ⟨rfl, rfl, rfl, ?_, rfl, rfl⟩
  exact append_ne_empty_left _ _ (by decide)

/-- C7 (amended): when the selection and the `find_best_agent` fallback both
resolve to no workers, no worker runs, the results dict stays empty, and the
supervisor's report is exactly the fixed "No results available to generate
report." message — the pipeline neither crashes nor fabricates content.
(When workers ran but all failed, the code takes the normal report path
instead; see the counterexample.) -/
theorem supervisor_empty_selection_report (reg : List (String × Agent))
    (planner : Except String TaskPlan) (router : Except String AgentSelection)
    (summarizer : String → Except String ExecutiveSummary)
    (now sessionId query : String) (context : Ctx)
    (hrouter : ∀ sel, router = Except.ok sel →
      ∀ a ∈ sel.agents, (listAgents reg).contains a = false)
    (hfb : findBestAgent reg query = none) :
    (runSupervisor reg planner router summarizer now sessionId query context).agent_results
      = [] ∧
    (runSupervisor reg planner router summarizer now sessionId query context).final_report =
      some "No results available to generate report." := by
  unfold runSupervisor
  set s0 : SupervisorState :=
    { session_id := sessionId, user_query := query, context := context } with hs0
  set s1 := parseQueryNode reg now s0 with hs1
  set s2 := planTaskNode planner s1 with hs2
  have h2 : s2.user_query = query ∧ s2.selected_agents = [] ∧ s2.agent_results = [] := by
    rw [hs2]
    unfold planTaskNode
    cases planner <;> exact ⟨rfl, rfl, rfl⟩
  set s3 := selectAgentsNode router reg s2 with hs3
  have h3sel : s3.selected_agents = [] := by
    rw [hs3]
    unfold selectAgentsNode
    cases hr : router with
    | error e => exact h2.2.1
    | ok sel =>
        have hval : sel.agents.filter (fun a => (listAgents reg).contains a) = [] := by
          rw [List.filter_eq_nil_iff]
          intro a ha
          rw [hrouter sel hr a ha]
          simp
        dsimp only
        rw [hval, h2.1, hfb]
        rfl
  have h3res : s3.agent_results = [] := by
    rw [hs3]
    unfold selectAgentsNode
    cases router with
    | error e => exact h2.2.2
    | ok sel => exact h2.2.2
  set s4 := executeAgentsNode reg s3 with hs4
  have h4res : s4.agent_results = [] := by
    rw [hs4]
    unfold executeAgentsNode
    rw [h3sel]
    exact h3res
  set s5 := aggregateResultsNode s4 with hs5
  have h5res : s5.agent_results = [] := by
    rw [hs5]
    unfold aggregateResultsNode
    rw [h4res]
    exact h4res
  constructor
  · show (generateReportNode summarizer now s5).agent_results = []
    unfold generateReportNode
    rw [h5res]
    rfl
  · show (generateReportNode summarizer now s5).final_report = _
    unfold generateReportNode
    rw [h5res]
    rfl

/-- The router selection naming only a ghost worker. -/
def ghostSelection : AgentSelection :=
  { agents := ["ghost"], reasoning := "r", execution_order := "parallel" }

/-- An empty task plan. -/
def emptyPlan : TaskPlan :=
  { steps := [], agents_needed := [], expected_output := "" }

/-- C7 witness: on an empty registry with a selection naming only an
unregistered worker, the supervisor produces the fixed "no results"
report. -/
theorem supervisor_empty_selection_report_witness :
    (runSupervisor [] (Except.ok emptyPlan) (Except.ok ghostSelection)
      (fun _ => Except.error "unused") "2026-10-12" "s1" "assess risk" []).agent_results
      = [] ∧
    (runSupervisor [] (Except.ok emptyPlan) (Except.ok ghostSelection)
      (fun _ => Except.error "unused") "2026-10-12" "s1" "assess risk" []).final_report =
      some "No results available to generate report." :=
  supervisor_empty_selection_report [] (Except.ok emptyPlan) (Except.ok ghostSelection)
    (fun _ => Except.error "unused") "2026-10-12" "s1" "assess risk" []
    (by
      intro sel hsel a ha
      cases hsel
      rfl)
    rfl

/-- A worker that runs and returns a failed Result (as `BaseAgent.execute`
does when its collaborators throw) without raising. -/
def failedRiskWorker : Agent :=
  { name := "risk_agent", capabilities := [],
    exec := fun q _ => Except.ok
      { agent_name := "risk_agent", query := q, success := false,
        error := some "assessment failed" } }

/-- The summarizer stub used in the all-workers-failed counterexample. -/
def fabricatingSummarizer : String → Except String ExecutiveSummary :=
  fun _ => Except.ok
    { summary := "All good", key_insights := ["i1"], recommendations := ["r1"],
      kpis := [{ name := "k", value := "v" }] }

/-- The supervisor run in which the one selected worker runs and fails. -/
def runAllFailed : SupervisorState :=
  runSupervisor [("risk_agent", failedRiskWorker)] (Except.ok emptyPlan)
    (Except.ok { agents := ["risk_agent"], reasoning := "r", execution_order := "parallel" })
    fabricatingSummarizer "2026-10-12" "s2" "assess risk" []

set_option maxRecDepth 4096 in
/-- C7 counterexample: a run in which a worker executed and failed (zero
workers succeeded, results dict non-empty) takes the normal report path:
the generated report is not the "no results" message and does not state
that no results were available. -/
theorem supervisor_all_failed_report_cex :
    (∀ p ∈ runAllFailed.agent_results, p.2.success = false) ∧
    runAllFailed.agent_results ≠ [] ∧
    runAllFailed.final_report.isSome = true ∧
    containsSub (optStr runAllFailed.final_report).data "No results available".data = false := by
  refine ⟨by decide, by decide, rfl, by decide⟩
